import Mathlib

/-!
Verification of the kompose resource-synthesis core.

Shallow embedding, translated from the Go sources:
- `pkg/transformer/kubernetes/k8sutils.go`
- the pod-spec builder file (health-check probes, volume/mount union steps,
  security-context user directive).

Go machine integers are modelled as `Int` with explicit two's-complement
wraparound where a narrowing conversion occurs in the source; Go maps read
with a missing key yield the zero value; Go panics are modelled as `none` /
`Except.error`.
-/

namespace Kompose

/-- Association-list read modelling a Go `map[string]string` access:
a missing key yields the zero value `""`. -/
def lookupD : List (String × String) → String → String
  | [], _ => ""
  | (k, v) :: rest, key => if k = key then v else lookupD rest key

/-- Decimal digit test, as used by Go `strconv` base-10 parsing. -/
def isDigitChar (c : Char) : Bool := '0' ≤ c && c ≤ '9'

/-- Value of a non-empty all-digit character list; `none` otherwise. -/
def parseDec (cs : List Char) : Option Nat :=
  if cs ≠ [] ∧ cs.all isDigitChar then
    some (cs.foldl (fun a c => a * 10 + (c.toNat - 48)) 0)
  else none

/-- Signed decimal reading: optional leading sign, then digits. -/
def goParseSigned : List Char → Option Int
  | '+' :: rest => (parseDec rest).map (fun n => (n : Int))
  | '-' :: rest => (parseDec rest).map (fun n => -(n : Int))
  | rest => (parseDec rest).map (fun n => (n : Int))

/-- Model of Go `strconv.ParseInt(s, 10, bits)`: optional leading sign,
one or more decimal digits, error (`none`) on any other shape or when the
value is outside the signed `bits`-wide range. -/
def goParseIntBits (s : String) (bits : Nat) : Option Int :=
  match goParseSigned s.data with
  | none => none
  | some v =>
    if -(2 ^ (bits - 1) : Int) ≤ v ∧ v ≤ 2 ^ (bits - 1) - 1 then some v else none

/-- Model of Go `strconv.Atoi` (= `ParseInt` with the 64-bit `int` size). -/
def goAtoi (s : String) : Option Int := goParseIntBits s 64

/-- Go conversion `int32(v)` from `int`: two's-complement wraparound. -/
def int32cast (v : Int) : Int := (v + 2 ^ 31) % 2 ^ 32 - 2 ^ 31

/-- Helper for `goSplitChar`: `acc` holds the current segment reversed. -/
def goSplitCharAux (sep : Char) : List Char → List Char → List String
  | [], acc => [String.mk acc.reverse]
  | c :: rest, acc =>
    if c == sep then String.mk acc.reverse :: goSplitCharAux sep rest []
    else goSplitCharAux sep rest (c :: acc)

/-- Model of Go `strings.Split(s, sep)` for a one-character separator
(the only shape the source uses): the segments between separator
occurrences; the empty string yields `[""]`. -/
def goSplitChar (sep : Char) (s : String) : List String :=
  goSplitCharAux sep s.data []

/-- The slice of `kobject.ServiceConfig` consumed by the synthesis core
under verification (identity, network mode, user directive, labels,
volumes, replica count). -/
structure ServiceConfig where
  Name : String := ""
  NetworkMode : String := ""
  User : String := ""
  Labels : List (String × String) := []
  Volumes : List String := []
  Replicas : Int := 0
deriving DecidableEq

/-! ### Autoscaler synthesis (`getHpaValue`, `validatePercentageMetric`,
`getResourceHpaValues`, `getHpaMetricSpec`, `createHPAResources`) -/

def DefaultMinReplicas : Int := 1

def DefaultMaxReplicas : Int := 3

def DefaultCPUUtilization : Int := 50

def DefaultMemoryUtilization : Int := 70

/-- HPA label key; the constant lives in the loader package (outside the
synthesis core). Its exact value is an opaque map key for the claims. -/
def LabelHpaCPU : String := "kompose.hpa.cpu"

/-- HPA label key (see `LabelHpaCPU`). -/
def LabelHpaMemory : String := "kompose.hpa.memory"

/-- HPA label key (see `LabelHpaCPU`). -/
def LabelHpaMinReplicas : String := "kompose.hpa.replicas.min"

/-- HPA label key (see `LabelHpaCPU`). -/
def LabelHpaMaxReplicas : String := "kompose.hpa.replicas.max"

structure HpaValues where
  MinReplicas : Int
  MaxReplicas : Int
  CPUtilization : Int
  MemoryUtilization : Int
deriving DecidableEq

/-- `getHpaValue`: convert the label value to an integer; on conversion
failure or a negative value return the provided default, otherwise the
value narrowed to `int32`. -/
def getHpaValue (service : ServiceConfig) (label : String) (defaultValue : Int) : Int :=
  match goAtoi (lookupD service.Labels label) with
  | none => defaultValue
  | some valueFromLabel =>
    if valueFromLabel < 0 then defaultValue else int32cast valueFromLabel

/-- `validatePercentageMetric`: replace a metric value outside `[1, 100]`
by the default. -/
def validatePercentageMetric (service : ServiceConfig) (metricLabel : String)
    (defaultValue : Int) : Int :=
  let metricValue := getHpaValue service metricLabel defaultValue
  if metricValue > 100 ∨ metricValue < 1 then defaultValue else metricValue

/-- `getResourceHpaValues`: read the four label-encoded values, raising
max replicas to min replicas when it is smaller. -/
def getResourceHpaValues (service : ServiceConfig) : HpaValues :=
  let minReplicas := getHpaValue service LabelHpaMinReplicas DefaultMinReplicas
  let maxReplicas := getHpaValue service LabelHpaMaxReplicas DefaultMaxReplicas
  let maxReplicas := if maxReplicas < minReplicas then minReplicas else maxReplicas
  let cpuUtilization := validatePercentageMetric service LabelHpaCPU DefaultCPUUtilization
  let memoryUtilization := validatePercentageMetric service LabelHpaMemory DefaultMemoryUtilization
  { MinReplicas := minReplicas
    MaxReplicas := maxReplicas
    CPUtilization := cpuUtilization
    MemoryUtilization := memoryUtilization }

/-- One entry of the HPA metrics list (`hpa.MetricSpec` restricted to the
fields the source sets: resource name, target type, average utilization). -/
structure MetricSpec where
  resourceName : String
  targetType : String
  averageUtilization : Int
deriving DecidableEq

/-- `getHpaMetricSpec`: one metric entry per utilization value `> 0`,
CPU first, then memory. -/
def getHpaMetricSpec (hpaValues : HpaValues) : List MetricSpec :=
  let metrics : List MetricSpec := []
  let metrics :=
    if hpaValues.CPUtilization > 0 then
      metrics ++ [{ resourceName := "cpu", targetType := "Utilization",
                    averageUtilization := hpaValues.CPUtilization }]
    else metrics
  let metrics :=
    if hpaValues.MemoryUtilization > 0 then
      metrics ++ [{ resourceName := "memory", targetType := "Utilization",
                    averageUtilization := hpaValues.MemoryUtilization }]
    else metrics
  metrics

/-- The HPA object fields set by `createHPAResources`. -/
structure HorizontalPodAutoscaler where
  name : String
  scaleTargetKind : String
  scaleTargetName : String
  minReplicas : Int
  maxReplicas : Int
  metrics : List MetricSpec
deriving DecidableEq

/-- `createHPAResources`: build the autoscaler object and zero the
service's replica count (the replica count becomes autoscaler-managed). -/
def createHPAResources (name : String) (service : ServiceConfig) :
    HorizontalPodAutoscaler × ServiceConfig :=
  let valuesHpa := getResourceHpaValues service
  let service := { service with Replicas := 0 }
  let metrics := getHpaMetricSpec valuesHpa
  ({ name := name
     scaleTargetKind := "Deployment"
     scaleTargetName := name
     minReplicas := valuesHpa.MinReplicas
     maxReplicas := valuesHpa.MaxReplicas
     metrics := metrics }, service)

/-! ### Health-check probe translation (`configProbe`) -/

/-- `kobject.HealthCheck` (the fields read by `configProbe`). A `nil` and
an empty Go slice are identified by this embedding. -/
structure HealthCheck where
  Test : List String := []
  HTTPPath : String := ""
  HTTPPort : Int := 0
  TCPPort : Int := 0
  Timeout : Int := 0
  Interval : Int := 0
  Retries : Int := 0
  StartPeriod : Int := 0
  Disable : Bool := false
deriving DecidableEq

/-- The zero value `kobject.HealthCheck{}` used for the blank-check test. -/
def HealthCheckZero : HealthCheck := {}

/-- `api.ProbeHandler`: three optional handler fields, of which the source
populates at most one. -/
structure ProbeHandler where
  exec : Option (List String) := none
  httpGet : Option (String × Int) := none
  tcpSocket : Option Int := none
deriving DecidableEq

/-- `api.Probe` restricted to the fields `configProbe` sets. -/
structure Probe where
  probeHandler : ProbeHandler
  timeoutSeconds : Int
  periodSeconds : Int
  failureThreshold : Int
  initialDelaySeconds : Int
deriving DecidableEq

/-- Outcome of `configProbe`: a probe (or no probe), or the panic raised
for a malformed health check. -/
inductive ProbeResult where
  | ok (probe : Option Probe)
  | fatal (msg : String)
deriving DecidableEq

/-- `configProbe`: no probe for a blank or disabled check; otherwise the
first populated handler in the order command / HTTP / TCP; the panic for a
check with no handler is modelled as `ProbeResult.fatal`. -/
def configProbe (healthCheck : HealthCheck) : ProbeResult :=
  if healthCheck = HealthCheckZero ∨ healthCheck.Disable = true then ProbeResult.ok none
  else
    let handler : Option ProbeHandler :=
      if healthCheck.Test.length > 0 then
        some { exec := some healthCheck.Test }
      else if healthCheck.HTTPPath ≠ "" ∧ healthCheck.HTTPPort ≠ 0 then
        some { httpGet := some (healthCheck.HTTPPath, healthCheck.HTTPPort) }
      else if healthCheck.TCPPort ≠ 0 then
        some { tcpSocket := some healthCheck.TCPPort }
      else none
    match handler with
    | none => ProbeResult.fatal "Health check must contain a command"
    | some h =>
      ProbeResult.ok (some
        { probeHandler := h
          timeoutSeconds := healthCheck.Timeout
          periodSeconds := healthCheck.Interval
          failureThreshold := healthCheck.Retries
          initialDelaySeconds := healthCheck.StartPeriod })

/-! ### Pod-spec builder: volume and volume-mount union steps
(`SetVolumes`, `SetVolumeMounts`) -/

/-- `api.Volume` (name plus an opaque source payload). -/
structure Volume where
  name : String
  source : String := ""
deriving DecidableEq

/-- `api.VolumeMount` (the fields relevant to the union step). -/
structure VolumeMount where
  name : String := ""
  mountPath : String
deriving DecidableEq

/-- `api.Container` restricted to the fields the verified passes touch. -/
structure Container where
  name : String := ""
  image : String := ""
  volumeMounts : List VolumeMount := []
deriving DecidableEq

/-- `PodSpec` restricted to the fields the verified passes touch. -/
structure PodSpec where
  containers : List Container := []
  volumes : List Volume := []
deriving DecidableEq

def volumeNames (volumes : List Volume) : List String := volumes.map (·.name)

/-- One union step of `SetVolumes`: append the volume unless its name is
already present. -/
def addVolumeStep (ps : PodSpec) (v : Volume) : PodSpec :=
  if v.name ∈ volumeNames ps.volumes then ps
  else { ps with volumes := ps.volumes ++ [v] }

/-- `SetVolumes`: add every input volume whose name is not yet in the pod
spec. The Go source iterates the name-set difference (golang-set iteration
order is unspecified) and appends the first input volume per fresh name;
the embedding fixes first-occurrence order, which adds the same volumes. -/
def SetVolumes (volumes : List Volume) (podSpec : PodSpec) : PodSpec :=
  volumes.foldl addVolumeStep podSpec

def volumeMountPaths (volumesMount : List VolumeMount) : List String :=
  volumesMount.map (·.mountPath)

/-- One union step of `SetVolumeMounts` on a single mount list. -/
def addVolumeMountStep (acc : List VolumeMount) (vm : VolumeMount) : List VolumeMount :=
  if vm.mountPath ∈ volumeMountPaths acc then acc else acc ++ [vm]

/-- Per-container body of `SetVolumeMounts`: add every input mount whose
mount path is not yet on the container (same set-difference reading as
`SetVolumes`). -/
def addVolumeMounts (volumesMount : List VolumeMount) (c : Container) : Container :=
  { c with volumeMounts := volumesMount.foldl addVolumeMountStep c.volumeMounts }

/-- `SetVolumeMounts`: apply the mount union to every container. -/
def SetVolumeMounts (volumesMount : List VolumeMount) (podSpec : PodSpec) : PodSpec :=
  { podSpec with containers := podSpec.containers.map (addVolumeMounts volumesMount) }

/-! ### Security-context user directive (`SecurityContext` in the pod-spec
builder and the identical switch in `UpdateKubernetesObjects`) -/

/-- The user-directive switch: split on `":"`; one part sets `RunAsUser`
from `strconv.ParseInt(_, 10, 64)` when it parses; two parts additionally
set `RunAsGroup`, each segment independently; any other number of parts
sets neither. Returns (RunAsUser, RunAsGroup). -/
def parseUserDirective (user : String) : Option Int × Option Int :=
  match goSplitChar ':' user with
  | [u] => (goParseIntBits u 64, none)
  | [u, g] => (goParseIntBits u 64, goParseIntBits g 64)
  | _ => (none, none)

/-! ### The synthesized object list -/

/-- `metav1.ObjectMeta` restricted to name and namespace. -/
structure ObjectMeta where
  name : String
  namespc : String := ""
deriving DecidableEq

/-- The closed variant set of objects flowing through the post-generation
passes (`runtime.Object` values produced by this core). -/
inductive K8sObject where
  | deployment (meta : ObjectMeta) (strategyType : String) (containers : List Container)
  | deploymentConfig (meta : ObjectMeta) (strategyType : String)
  | statefulSet (meta : ObjectMeta)
  | service (meta : ObjectMeta)
  | other (kind : String) (meta : ObjectMeta)
deriving DecidableEq

/-- `GroupVersionKind().Kind`. -/
def K8sObject.kind : K8sObject → String
  | .deployment _ _ _ => "Deployment"
  | .deploymentConfig _ _ => "DeploymentConfig"
  | .statefulSet _ => "StatefulSet"
  | .service _ => "Service"
  | .other k _ => k

def K8sObject.metadata : K8sObject → ObjectMeta
  | .deployment m _ _ => m
  | .deploymentConfig m _ => m
  | .statefulSet m => m
  | .service m => m
  | .other _ m => m

/-- The API group/version of each variant (constant per concrete type in
the source; empty for untyped objects). -/
def K8sObject.apiVersion : K8sObject → String
  | .deployment _ _ _ => "apps/v1"
  | .deploymentConfig _ _ => "apps.openshift.io/v1"
  | .statefulSet _ => "apps/v1"
  | .service _ => "v1"
  | .other _ _ => ""

/-- The deduplication key built in `RemoveDupObjects`:
`GroupVersionKind().String() + namespace + name`, a plain string
concatenation. -/
def dedupKey (o : K8sObject) : String :=
  o.apiVersion ++ ", Kind=" ++ o.kind ++ o.metadata.namespc ++ o.metadata.name

/-- Loop of `RemoveDupObjects`: keep an object whose key is unseen,
record its key; drop an object whose key was seen. -/
def removeDupGo : List K8sObject → List String → List K8sObject
  | [], _ => []
  | o :: rest, exist =>
    if dedupKey o ∈ exist then removeDupGo rest exist
    else o :: removeDupGo rest (dedupKey o :: exist)

/-- `RemoveDupObjects` (every object in this core carries object metadata,
so the `metav1.Object` cast always succeeds). -/
def RemoveDupObjects (objs : List K8sObject) : List K8sObject :=
  removeDupGo objs []

/-- One step of the `SortServicesFirst` loop: route the object into the
service bucket or the others bucket. -/
def sortServicesStep (acc : List K8sObject × List K8sObject) (obj : K8sObject) :
    List K8sObject × List K8sObject :=
  if obj.kind = "Service" then (acc.1 ++ [obj], acc.2) else (acc.1, acc.2 ++ [obj])

/-- `SortServicesFirst`: one pass splitting the list into service-kind
objects and the rest, then concatenating services first. -/
def SortServicesFirst (objs : List K8sObject) : List K8sObject :=
  let p := objs.foldl sortServicesStep ([], [])
  p.1 ++ p.2

/-- Effect on the update-strategy field of the per-object loop tail in
`UpdateKubernetesObjects` / `UpdateKubernetesObjectsMultipleContainers`:
when the service declares at least one volume, Deployment and
DeploymentConfig objects get the Recreate strategy (the StatefulSet branch
embeds volume claims and the preceding `UpdateController` call fills only
the pod template and metadata; neither touches the strategy field). -/
def applyRecreateStrategy (serviceVolumes : List String) (objs : List K8sObject) :
    List K8sObject :=
  objs.map fun obj =>
    if serviceVolumes.length > 0 then
      match obj with
      | .deployment m _ cs => .deployment m "Recreate" cs
      | .deploymentConfig m _ => .deploymentConfig m "Recreate"
      | o => o
    else obj

/-! ### Network-mode merge (`fixNetworkModeToService` and helpers) -/

structure DeploymentMapping where
  SourceDeploymentName : String
  TargetDeploymentName : String
deriving DecidableEq

def NetworkModeService : String := "service:"

/-- Is `pat` a prefix of `s` (character lists)? -/
def charsHasPre : List Char → List Char → Bool
  | _, [] => true
  | [], _ :: _ => false
  | a :: as, b :: bs => a == b && charsHasPre as bs

/-- Does `s` contain `pat` as a contiguous sublist? -/
def charsContainsSub : List Char → List Char → Bool
  | [], pat => pat.isEmpty
  | a :: rest, pat => charsHasPre (a :: rest) pat || charsContainsSub rest pat

/-- Model of Go `strings.Contains`. -/
def strContains (s pat : String) : Bool := charsContainsSub s.data pat.data

/-- `searchNetworkModeToService`: for every service whose network mode
contains `"service:"` and splits on `":"` into at least two parts, record
the mapping source = service name, target = second part. The Go map
iteration is modelled as the given list order. -/
def searchNetworkModeToService (services : List ServiceConfig) : List DeploymentMapping :=
  services.foldl
    (fun acc service =>
      if strContains service.NetworkMode NetworkModeService then
        match goSplitChar ':' service.NetworkMode with
        | _ :: target :: _ =>
          acc ++ [{ SourceDeploymentName := service.Name, TargetDeploymentName := target }]
        | _ => acc
      else acc)
    []

/-- `addContainersToTargetDeployment`: append the given containers to
every Deployment whose name matches. -/
def addContainersToTargetDeployment (objects : List K8sObject)
    (containersToAppend : List Container) (nameDeploymentToTransfer : String) :
    List K8sObject :=
  objects.map fun obj =>
    match obj with
    | .deployment m s cs =>
      if m.name = nameDeploymentToTransfer then .deployment m s (cs ++ containersToAppend)
      else .deployment m s cs
    | o => o

/-- One iteration of the `addContainersFromSourceToTargetDeployment` loop:
read the (possibly already mutated) object at position `i`; if it is a
Deployment named like the mapping source, append its containers to the
target. -/
def addContainersFromSourceStep (currentDeploymentMap : DeploymentMapping)
    (objs : List K8sObject) (i : Nat) : List K8sObject :=
  match objs.get? i with
  | some (.deployment m _ cs) =>
    if m.name = currentDeploymentMap.SourceDeploymentName then
      addContainersToTargetDeployment objs cs currentDeploymentMap.TargetDeploymentName
    else objs
  | _ => objs

/-- `addContainersFromSourceToTargetDeployment`: the Go range loop walks
the slice positions in order; mutation is through pointers, modelled as
reading the current list state at each position. -/
def addContainersFromSourceToTargetDeployment (objects : List K8sObject)
    (currentDeploymentMap : DeploymentMapping) : List K8sObject :=
  (List.range objects.length).foldl (addContainersFromSourceStep currentDeploymentMap) objects

/-- `mergeContainersIntoDestinationDeployment`. -/
def mergeContainersIntoDestinationDeployment (deploymentMappings : List DeploymentMapping)
    (objects : List K8sObject) : List K8sObject :=
  deploymentMappings.foldl addContainersFromSourceToTargetDeployment objects

/-- `removeFromSlice`: remove the first object structurally equal
(`reflect.DeepEqual`) to the given one. -/
def removeFromSlice (objects : List K8sObject) (objectToRemove : K8sObject) : List K8sObject :=
  match objects with
  | [] => []
  | o :: rest =>
    if o = objectToRemove then rest else o :: removeFromSlice rest objectToRemove

/-- One iteration of the `removeTargetDeployment` loop at index `i`. -/
def removeTargetStep (objects : List K8sObject) (targetDeploymentName : String) (i : Nat) :
    List K8sObject :=
  match objects.get? i with
  | some (.deployment m s cs) =>
    if m.name = targetDeploymentName then removeFromSlice objects (.deployment m s cs)
    else objects
  | _ => objects

/-- The descending index loop of `removeTargetDeployment`
(`for i := len - 1; i >= 0; i--`). -/
def removeTargetGo (targetDeploymentName : String) : List K8sObject → Nat → List K8sObject
  | objects, 0 => removeTargetStep objects targetDeploymentName 0
  | objects, i + 1 =>
    removeTargetGo targetDeploymentName (removeTargetStep objects targetDeploymentName (i + 1)) i

/-- `removeTargetDeployment`: remove every Deployment with the given name
via structural-equality removal, scanning indices from the end. -/
def removeTargetDeployment (objects : List K8sObject) (targetDeploymentName : String) :
    List K8sObject :=
  match objects.length with
  | 0 => objects
  | n + 1 => removeTargetGo targetDeploymentName objects n

/-- `removeDeploymentTransfered`: remove the source deployment of every
mapping. -/
def removeDeploymentTransfered (deploymentMappings : List DeploymentMapping)
    (objects : List K8sObject) : List K8sObject :=
  deploymentMappings.foldl
    (fun objs m => removeTargetDeployment objs m.SourceDeploymentName) objects

/-- `fixNetworkModeToService`: compute the mappings, merge containers into
the destination deployments, then remove the transferred source
deployments; no-op when there are no mappings. -/
def fixNetworkModeToService (objects : List K8sObject) (services : List ServiceConfig) :
    List K8sObject :=
  let deploymentMappings := searchNetworkModeToService services
  if deploymentMappings.length = 0 then objects
  else
    removeDeploymentTransfered deploymentMappings
      (mergeContainersIntoDestinationDeployment deploymentMappings objects)

/-! ### Env-artifact name repair (`FormatEnvName`, `getUsableNameEnvFile`) -/

/-- Character of the Go trim cutset `"./"`. -/
def isCutChar (c : Char) : Bool := c == '.' || c == '/'

/-- Model of `strings.Trim(s, "./")`: drop leading and trailing cutset
characters. -/
def trimDotSlash (s : String) : String :=
  ⟨((s.data.dropWhile isCutChar).reverse.dropWhile isCutChar).reverse⟩

/-- ASCII alphanumeric test (the regexp class used by `FormatEnvName`). -/
def isAlphaNum (c : Char) : Bool :=
  ('a' ≤ c && c ≤ 'z') || ('A' ≤ c && c ≤ 'Z') || ('0' ≤ c && c ≤ '9')

/-- `getUsableNameEnvFile`: reads `envName[0]` with no emptiness guard —
the empty string makes the Go code panic with an index-out-of-range error,
modelled as `none`. A leading `"-"` is repaired by prefixing the service
name; names longer than 63 are truncated to 63. -/
def getUsableNameEnvFile (envName : String) (serviceName : String) : Option String :=
  match envName.data with
  | [] => none
  | c :: _ =>
    let envName := if c = '-' then serviceName ++ envName else envName
    some (if envName.length > 63 then ⟨envName.data.take 63⟩ else envName)

/-- `FormatEnvName`: trim the `"./"` cutset, replace every
non-alphanumeric character by `'-'`, then repair the name. -/
def FormatEnvName (name : String) (serviceName : String) : Option String :=
  let envName := trimDotSlash name
  let envName : String := ⟨envName.data.map (fun c => if isAlphaNum c then c else '-')⟩
  getUsableNameEnvFile envName serviceName

/-! ## Theorems -/

/-- C2: probe translation returns no probe when the check is blank or
disabled; otherwise exactly one of exec / HTTP-get / TCP-socket handlers
is populated, chosen by precedence command > HTTP > TCP (in particular a
check with both a command and an HTTP target yields an exec-only probe);
when none of the three is populated, translation fails fatally. -/
theorem configProbe_precedence :
    (∀ hc : HealthCheck, hc = HealthCheckZero ∨ hc.Disable = true →
      configProbe hc = ProbeResult.ok none)
    ∧ (∀ hc : HealthCheck, ¬(hc = HealthCheckZero ∨ hc.Disable = true) → hc.Test ≠ [] →
      configProbe hc = ProbeResult.ok (some
        { probeHandler := { exec := some hc.Test, httpGet := none, tcpSocket := none }
          timeoutSeconds := hc.Timeout
          periodSeconds := hc.Interval
          failureThreshold := hc.Retries
          initialDelaySeconds := hc.StartPeriod }))
    ∧ (∀ hc : HealthCheck, ¬(hc = HealthCheckZero ∨ hc.Disable = true) → hc.Test = [] →
      hc.HTTPPath ≠ "" → hc.HTTPPort ≠ 0 →
      configProbe hc = ProbeResult.ok (some
        { probeHandler :=
            { exec := none, httpGet := some (hc.HTTPPath, hc.HTTPPort), tcpSocket := none }
          timeoutSeconds := hc.Timeout
          periodSeconds := hc.Interval
          failureThreshold := hc.Retries
          initialDelaySeconds := hc.StartPeriod }))
    ∧ (∀ hc : HealthCheck, ¬(hc = HealthCheckZero ∨ hc.Disable = true) → hc.Test = [] →
      ¬(hc.HTTPPath ≠ "" ∧ hc.HTTPPort ≠ 0) → hc.TCPPort ≠ 0 →
      configProbe hc = ProbeResult.ok (some
        { probeHandler := { exec := none, httpGet := none, tcpSocket := some hc.TCPPort }
          timeoutSeconds := hc.Timeout
          periodSeconds := hc.Interval
          failureThreshold := hc.Retries
          initialDelaySeconds := hc.StartPeriod }))
    ∧ (∀ hc : HealthCheck, ¬(hc = HealthCheckZero ∨ hc.Disable = true) → hc.Test = [] →
      ¬(hc.HTTPPath ≠ "" ∧ hc.HTTPPort ≠ 0) → hc.TCPPort = 0 →
      configProbe hc = ProbeResult.fatal "Health check must contain a command") := by
  refine ⟨?_, ?_, ?_, ?_, ?_⟩
  · intro hc h
    simp [configProbe, h]
  · intro hc hnb hne
    have hlen : hc.Test.length > 0 := List.length_pos.mpr hne
    simp [configProbe, hnb, hlen]
  · intro hc hnb ht hp hq
    simp [configProbe, hnb, ht, hp, hq]
  · intro hc hnb ht hh htcp
    simp [configProbe, hnb, ht, hh, htcp]
  · intro hc hnb ht hh htcp
    simp [configProbe, hnb, ht, hh, htcp]

/-- Witness for C2 at a concrete health check carrying both a command and
an HTTP target: the probe is exec-only. -/
theorem configProbe_precedence_witness :
    configProbe { Test := ["CMD", "curl"], HTTPPath := "/health", HTTPPort := 80 }
      = ProbeResult.ok (some
        { probeHandler := { exec := some ["CMD", "curl"], httpGet := none, tcpSocket := none }
          timeoutSeconds := 0
          periodSeconds := 0
          failureThreshold := 0
          initialDelaySeconds := 0 }) :=
  configProbe_precedence.2.1
    { Test := ["CMD", "curl"], HTTPPath := "/health", HTTPPort := 80 }
    (by decide) (by decide)

theorem goAtoi_empty : goAtoi "" = none := by decide

/-- C3: autoscaler value derivation uses defaults {1, 3, 50, 70}; a label
that fails to parse or parses negative falls back to its default; max
replicas below min replicas is raised to min replicas (5/2 gives 5); a
utilization outside [1,100] is replaced by its default (150 gives 50). -/
theorem hpaValues_defaults_and_clamp :
    (∀ (svc : ServiceConfig) (label : String) (d : Int),
      goAtoi (lookupD svc.Labels label) = none → getHpaValue svc label d = d)
    ∧ (∀ (svc : ServiceConfig) (label : String) (d v : Int),
      goAtoi (lookupD svc.Labels label) = some v → v < 0 → getHpaValue svc label d = d)
    ∧ (∀ svc : ServiceConfig, svc.Labels = [] →
      getResourceHpaValues svc =
        ⟨DefaultMinReplicas, DefaultMaxReplicas, DefaultCPUUtilization, DefaultMemoryUtilization⟩)
    ∧ (∀ svc : ServiceConfig,
      getHpaValue svc LabelHpaMaxReplicas DefaultMaxReplicas
          < getHpaValue svc LabelHpaMinReplicas DefaultMinReplicas →
      (getResourceHpaValues svc).MaxReplicas = (getResourceHpaValues svc).MinReplicas)
    ∧ (∀ svc : ServiceConfig,
      (getResourceHpaValues svc).MinReplicas ≤ (getResourceHpaValues svc).MaxReplicas)
    ∧ (∀ svc : ServiceConfig,
      getHpaValue svc LabelHpaCPU DefaultCPUUtilization > 100
          ∨ getHpaValue svc LabelHpaCPU DefaultCPUUtilization < 1 →
      (getResourceHpaValues svc).CPUtilization = DefaultCPUUtilization)
    ∧ (∀ svc : ServiceConfig,
      getHpaValue svc LabelHpaMemory DefaultMemoryUtilization > 100
          ∨ getHpaValue svc LabelHpaMemory DefaultMemoryUtilization < 1 →
      (getResourceHpaValues svc).MemoryUtilization = DefaultMemoryUtilization)
    ∧ getResourceHpaValues { Labels := [(LabelHpaMinReplicas, "5"), (LabelHpaMaxReplicas, "2")] }
        = ⟨5, 5, DefaultCPUUtilization, DefaultMemoryUtilization⟩
    ∧ getResourceHpaValues { Labels := [(LabelHpaCPU, "150")] }
        = ⟨DefaultMinReplicas, DefaultMaxReplicas, DefaultCPUUtilization, DefaultMemoryUtilization⟩ := by
  refine ⟨?_, ?_, ?_, ?_, ?_, ?_, ?_, by decide, by decide⟩
  · intro svc label d h
    simp [getHpaValue, h]
  · intro svc label d v h hv
    simp [getHpaValue, h, hv]
  · intro svc h
    simp [getResourceHpaValues, validatePercentageMetric, getHpaValue, h, lookupD, goAtoi_empty,
      DefaultMinReplicas, DefaultMaxReplicas, DefaultCPUUtilization, DefaultMemoryUtilization]
  · intro svc h
    simp [getResourceHpaValues, h]
  · intro svc
    by_cases h : getHpaValue svc LabelHpaMaxReplicas DefaultMaxReplicas
        < getHpaValue svc LabelHpaMinReplicas DefaultMinReplicas
    · simp [getResourceHpaValues, h]
    · simp [getResourceHpaValues, h]
      exact le_of_not_lt h
  · intro svc h
    simp [getResourceHpaValues, validatePercentageMetric, h]
  · intro svc h
    simp [getResourceHpaValues, validatePercentageMetric, h]

/-- Witness for C3, discharging each hypothesis at concrete label maps. -/
theorem hpaValues_defaults_and_clamp_witness :
    getHpaValue { Labels := [] } LabelHpaCPU 7 = 7
    ∧ getHpaValue { Labels := [(LabelHpaCPU, "-4")] } LabelHpaCPU 9 = 9
    ∧ getResourceHpaValues { Labels := [] } = ⟨1, 3, 50, 70⟩
    ∧ (getResourceHpaValues { Labels := [(LabelHpaMinReplicas, "5"), (LabelHpaMaxReplicas, "2")] }).MaxReplicas
        = (getResourceHpaValues { Labels := [(LabelHpaMinReplicas, "5"), (LabelHpaMaxReplicas, "2")] }).MinReplicas
    ∧ (getResourceHpaValues { Labels := [(LabelHpaCPU, "150")] }).CPUtilization = 50
    ∧ (getResourceHpaValues { Labels := [(LabelHpaMemory, "0")] }).MemoryUtilization = 70 := by
  refine ⟨hpaValues_defaults_and_clamp.1 _ _ _ (by decide),
    hpaValues_defaults_and_clamp.2.1 _ _ _ (-4) (by decide) (by decide),
    hpaValues_defaults_and_clamp.2.2.1 _ (by decide),
    hpaValues_defaults_and_clamp.2.2.2.1 _ (by decide),
    ?_, ?_⟩
  · have h := hpaValues_defaults_and_clamp.2.2.2.2.2.1
      { Labels := [(LabelHpaCPU, "150")] } (by decide)
    rw [h]
    decide
  · have h := hpaValues_defaults_and_clamp.2.2.2.2.2.2.1
      { Labels := [(LabelHpaMemory, "0")] } (by decide)
    rw [h]
    decide

/-- Bounds of `validatePercentageMetric`: in range when the default is. -/
theorem validatePercentageMetric_range (svc : ServiceConfig) (lbl : String) (d : Int)
    (h1 : 1 ≤ d) (h2 : d ≤ 100) :
    1 ≤ validatePercentageMetric svc lbl d ∧ validatePercentageMetric svc lbl d ≤ 100 := by
  unfold validatePercentageMetric
  by_cases h : getHpaValue svc lbl d > 100 ∨ getHpaValue svc lbl d < 1
  · simp [h]
    exact ⟨h1, h2⟩
  · simp [h]
    push_neg at h
    exact ⟨h.2, h.1⟩

/-- C9: the synthesized autoscaler's metrics list always has exactly two
entries — one CPU and one memory utilization target — because the
validated utilization values lie in [1,100], so the greater-than-zero
guard never drops a metric. -/
theorem hpaMetrics_two_entries :
    ∀ (name : String) (svc : ServiceConfig),
      1 ≤ (getResourceHpaValues svc).CPUtilization
      ∧ (getResourceHpaValues svc).CPUtilization ≤ 100
      ∧ 1 ≤ (getResourceHpaValues svc).MemoryUtilization
      ∧ (getResourceHpaValues svc).MemoryUtilization ≤ 100
      ∧ (createHPAResources name svc).1.metrics
          = [{ resourceName := "cpu", targetType := "Utilization",
               averageUtilization := (getResourceHpaValues svc).CPUtilization },
             { resourceName := "memory", targetType := "Utilization",
               averageUtilization := (getResourceHpaValues svc).MemoryUtilization }]
      ∧ (createHPAResources name svc).1.metrics.length = 2 := by
  intro name svc
  have hcpu : (getResourceHpaValues svc).CPUtilization
      = validatePercentageMetric svc LabelHpaCPU DefaultCPUUtilization := by
    simp [getResourceHpaValues]
  have hmem : (getResourceHpaValues svc).MemoryUtilization
      = validatePercentageMetric svc LabelHpaMemory DefaultMemoryUtilization := by
    simp [getResourceHpaValues]
  have hc := validatePercentageMetric_range svc LabelHpaCPU DefaultCPUUtilization
    (by decide) (by decide)
  have hm := validatePercentageMetric_range svc LabelHpaMemory DefaultMemoryUtilization
    (by decide) (by decide)
  rw [hcpu, hmem]
  have h1 : validatePercentageMetric svc LabelHpaCPU DefaultCPUUtilization > 0 :=
    lt_of_lt_of_le (by decide) hc.1
  have h2 : validatePercentageMetric svc LabelHpaMemory DefaultMemoryUtilization > 0 :=
    lt_of_lt_of_le (by decide) hm.1
  refine ⟨hc.1, hc.2, hm.1, hm.2, ?_, ?_⟩
  · show getHpaMetricSpec (getResourceHpaValues svc) = _
    simp [getHpaMetricSpec, hcpu, hmem, h1, h2]
  · show (getHpaMetricSpec (getResourceHpaValues svc)).length = 2
    simp [getHpaMetricSpec, hcpu, hmem, h1, h2]

/-- String equality transfers to character-list equality. -/
theorem string_data_ne_nil {s : String} (h : s ≠ "") : s.data ≠ [] := by
  intro hd
  exact h (by cases s with | mk d => cases hd; rfl)

/-- C10: the env-artifact name repair reads the first character without an
emptiness guard — for the empty name (reachable via `FormatEnvName` on a
raw name made only of '.' and '/' characters, which trims to the empty
string) it panics with an index-out-of-range error; for every non-empty
input it returns a non-empty name of length at most 63. -/
theorem envFileName_guard_and_bound :
    (∀ s : String, getUsableNameEnvFile "" s = none)
    ∧ (∀ (name s : String), name.data.all isCutChar = true → FormatEnvName name s = none)
    ∧ (∀ (e s : String), e ≠ "" →
        ∃ r, getUsableNameEnvFile e s = some r ∧ r ≠ "" ∧ r.length ≤ 63) := by
  refine ⟨fun s => rfl, ?_, ?_⟩
  · intro name s h
    have hdrop : name.data.dropWhile isCutChar = [] := by
      rw [List.dropWhile_eq_nil_iff]
      intro x hx
      exact List.all_eq_true.mp h x hx
    have htrim : trimDotSlash name = "" := by
      unfold trimDotSlash
      rw [hdrop]
      rfl
    unfold FormatEnvName
    rw [htrim]
    rfl
  · intro e s he
    have hd := string_data_ne_nil he
    rcases hcons : e.data with _ | ⟨c, rest⟩
    · exact absurd hcons hd
    · have heq : getUsableNameEnvFile e s
          = some (if (if c = '-' then s ++ e else e).length > 63
              then (⟨(if c = '-' then s ++ e else e).data.take 63⟩ : String)
              else (if c = '-' then s ++ e else e)) := by
        unfold getUsableNameEnvFile
        rw [hcons]
      set en : String := if c = '-' then s ++ e else e with hen
      have hne : en.data ≠ [] := by
        rw [hen]
        by_cases hc : c = '-'
        · simp only [if_pos hc]
          intro hcontra
          have hnil : s.data ++ e.data = [] := by
            have h2 := congrArg String.data ((String.ext hcontra : s ++ e = ""))
            simpa using h2
          exact hd (List.append_eq_nil.mp hnil).2
        · simp only [if_neg hc]
          exact hd
      by_cases hlen : en.length > 63
      · rw [if_pos hlen] at heq
        refine ⟨⟨en.data.take 63⟩, heq, ?_, ?_⟩
        · intro hcontra
          have hnil : en.data.take 63 = [] := congrArg String.data hcontra
          rcases hx : en.data with _ | ⟨x, xs⟩
          · exact hne hx
          · rw [hx] at hnil
            simp [List.take] at hnil
        · show (en.data.take 63).length ≤ 63
          rw [List.length_take]
          exact min_le_left _ _
      · rw [if_neg hlen] at heq
        refine ⟨en, heq, ?_, le_of_not_lt hlen⟩
        intro hcontra
        exact hne (congrArg String.data hcontra)

/-- Witness for C10 at concrete names: `"abc"` maps through untouched and
`"./"` trims to the empty string and panics. -/
theorem envFileName_guard_and_bound_witness :
    (∃ r, getUsableNameEnvFile "abc" "svc" = some r ∧ r ≠ "" ∧ r.length ≤ 63)
    ∧ FormatEnvName "./" "svc" = none :=
  ⟨envFileName_guard_and_bound.2.2 "abc" "svc" (by decide),
   envFileName_guard_and_bound.2.1 "./" "svc" (by decide)⟩

/-- C7 counterexample: the user directive `"-5"` does not parse as a
non-negative integer, yet the run-as-user field is set (to `-5`) instead
of the segment being dropped — `strconv.ParseInt` accepts a sign, so the
claim's "must parse as non-negative integers" is false on the code. -/
theorem userDirective_counterexample :
    parseUserDirective "-5" = (some (-5), none)
    ∧ parseUserDirective "-5" ≠ (none, none) := by decide

/-- C7 amended: parsing accepts the forms UID or UID:GID where each
segment must parse as a signed 64-bit integer (so negative values are
accepted, not only non-negative ones); each malformed segment is dropped
independently, never aborting pod construction; three or more
colon-separated parts set neither field. -/
theorem userDirective_parsing (u : String) (_hu : u ≠ "") :
    (∀ p, goSplitChar ':' u = [p] → parseUserDirective u = (goParseIntBits p 64, none))
    ∧ (∀ p g, goSplitChar ':' u = [p, g] →
        parseUserDirective u = (goParseIntBits p 64, goParseIntBits g 64))
    ∧ (∀ parts, goSplitChar ':' u = parts → 3 ≤ parts.length →
        parseUserDirective u = (none, none))
    ∧ (∀ (p : String) (v : Int), goParseIntBits p 64 = some v →
        -(2 ^ 63) ≤ v ∧ v ≤ 2 ^ 63 - 1) := by
  refine ⟨?_, ?_, ?_, ?_⟩
  · intro p h
    unfold parseUserDirective
    rw [h]
  · intro p g h
    unfold parseUserDirective
    rw [h]
  · intro parts h hlen
    unfold parseUserDirective
    rw [h]
    match parts, hlen with
    | p :: g :: x :: rest, _ => rfl
  · intro p v h
    unfold goParseIntBits at h
    rcases hs : goParseSigned p.data with _ | w
    · rw [hs] at h
      exact absurd h (by simp)
    · rw [hs] at h
      have h2 : (if -(2 ^ (64 - 1) : Int) ≤ w ∧ w ≤ 2 ^ (64 - 1) - 1 then some w
          else none) = some v := h
      by_cases hr : -(2 ^ (64 - 1) : Int) ≤ w ∧ w ≤ 2 ^ (64 - 1) - 1
      · rw [if_pos hr] at h2
        cases h2
        exact ⟨hr.1, hr.2⟩
      · rw [if_neg hr] at h2
        exact absurd h2 (by simp)

/-- Witness for C7 at concrete directives: a well-formed pair, a malformed
group segment, and a three-part directive. -/
theorem userDirective_parsing_witness :
    parseUserDirective "33:44" = (some 33, some 44)
    ∧ parseUserDirective "abc:44" = (none, some 44)
    ∧ parseUserDirective "1:2:3" = (none, none) := by
  have h1 := (userDirective_parsing "33:44" (by decide)).2.1 "33" "44" (by decide)
  have h2 := (userDirective_parsing "abc:44" (by decide)).2.1 "abc" "44" (by decide)
  have h3 := (userDirective_parsing "1:2:3" (by decide)).2.2.1 ["1", "2", "3"]
    (by decide) (by decide)
  refine ⟨?_, ?_, h3⟩
  · rw [h1]
    decide
  · rw [h2]
    decide

/-- C8: when the service declares at least one volume, the controller
update pass sets the update strategy of every Deployment and
DeploymentConfig to Recreate (keeping name and containers); when the
service declares no volumes the strategy field of every object is left
unchanged. -/
theorem recreateStrategy_iff_volumes (vols : List String) (objs : List K8sObject) :
    (vols = [] → applyRecreateStrategy vols objs = objs)
    ∧ (vols ≠ [] →
        (∀ m s cs, K8sObject.deployment m s cs ∈ applyRecreateStrategy vols objs →
          s = "Recreate")
        ∧ (∀ m s, K8sObject.deploymentConfig m s ∈ applyRecreateStrategy vols objs →
          s = "Recreate")
        ∧ (∀ m s cs, K8sObject.deployment m s cs ∈ objs →
          K8sObject.deployment m "Recreate" cs ∈ applyRecreateStrategy vols objs)
        ∧ (∀ m s, K8sObject.deploymentConfig m s ∈ objs →
          K8sObject.deploymentConfig m "Recreate" ∈ applyRecreateStrategy vols objs)
        ∧ (∀ o ∈ objs, o.kind ≠ "Deployment" → o.kind ≠ "DeploymentConfig" →
          o ∈ applyRecreateStrategy vols objs)) := by
  constructor
  · intro h
    simp [applyRecreateStrategy, h]
  · intro h
    have hlen : vols.length > 0 := List.length_pos.mpr h
    refine ⟨?_, ?_, ?_, ?_, ?_⟩
    · intro m s cs hmem
      rcases List.mem_map.mp hmem with ⟨x, _, hx⟩
      rw [if_pos hlen] at hx
      cases x <;> simp_all
    · intro m s hmem
      rcases List.mem_map.mp hmem with ⟨x, _, hx⟩
      rw [if_pos hlen] at hx
      cases x <;> simp_all
    · intro m s cs hmem
      have hx : (fun obj => if vols.length > 0 then
          match obj with
          | K8sObject.deployment m _ cs => K8sObject.deployment m "Recreate" cs
          | K8sObject.deploymentConfig m _ => K8sObject.deploymentConfig m "Recreate"
          | o => o
        else obj) (K8sObject.deployment m s cs) = K8sObject.deployment m "Recreate" cs := by
        simp [hlen]
      exact hx ▸ List.mem_map_of_mem _ hmem
    · intro m s hmem
      have hx : (fun obj => if vols.length > 0 then
          match obj with
          | K8sObject.deployment m _ cs => K8sObject.deployment m "Recreate" cs
          | K8sObject.deploymentConfig m _ => K8sObject.deploymentConfig m "Recreate"
          | o => o
        else obj) (K8sObject.deploymentConfig m s) = K8sObject.deploymentConfig m "Recreate" := by
        simp [hlen]
      exact hx ▸ List.mem_map_of_mem _ hmem
    · intro o hmem h1 h2
      have hx : (fun obj => if vols.length > 0 then
          match obj with
          | K8sObject.deployment m _ cs => K8sObject.deployment m "Recreate" cs
          | K8sObject.deploymentConfig m _ => K8sObject.deploymentConfig m "Recreate"
          | o => o
        else obj) o = o := by
        cases o <;> simp_all [K8sObject.kind, hlen]
      exact hx ▸ List.mem_map_of_mem _ hmem

/-- Witness for C8 at a concrete two-object list with and without
declared volumes. -/
theorem recreateStrategy_iff_volumes_witness :
    applyRecreateStrategy []
        [K8sObject.deployment ⟨"web", ""⟩ "RollingUpdate" [], K8sObject.service ⟨"web", ""⟩]
      = [K8sObject.deployment ⟨"web", ""⟩ "RollingUpdate" [], K8sObject.service ⟨"web", ""⟩]
    ∧ K8sObject.deployment ⟨"web", ""⟩ "Recreate" []
        ∈ applyRecreateStrategy ["data"]
          [K8sObject.deployment ⟨"web", ""⟩ "RollingUpdate" [], K8sObject.service ⟨"web", ""⟩]
    ∧ K8sObject.service ⟨"web", ""⟩
        ∈ applyRecreateStrategy ["data"]
          [K8sObject.deployment ⟨"web", ""⟩ "RollingUpdate" [], K8sObject.service ⟨"web", ""⟩] := by
  refine ⟨(recreateStrategy_iff_volumes [] _).1 rfl, ?_, ?_⟩
  · exact ((recreateStrategy_iff_volumes ["data"] _).2 (by decide)).2.2.1
      ⟨"web", ""⟩ "RollingUpdate" [] (by decide)
  · exact ((recreateStrategy_iff_volumes ["data"] _).2 (by decide)).2.2.2.2
      (K8sObject.service ⟨"web", ""⟩) (by decide) (by decide) (by decide)

/-- The sort fold computes the two stable partitions. -/
theorem sortServicesFold (l : List K8sObject) (acc : List K8sObject × List K8sObject) :
    l.foldl sortServicesStep acc
      = (acc.1 ++ l.filter (fun o => o.kind == "Service"),
         acc.2 ++ l.filter (fun o => !(o.kind == "Service"))) := by
  induction l generalizing acc with
  | nil => simp
  | cons a t ih =>
    rw [List.foldl_cons, ih]
    by_cases h : a.kind = "Service"
    · simp [sortServicesStep, h, List.filter_cons]
    · simp [sortServicesStep, h, List.filter_cons]

/-- Filtering with a predicate after filtering with it is the identity. -/
theorem filter_filter_self {α : Type} (p : α → Bool) :
    ∀ l : List α, (l.filter p).filter p = l.filter p := by
  intro l
  induction l with
  | nil => rfl
  | cons a t ih =>
    by_cases h : p a
    · simp [List.filter_cons, h, ih]
    · simp [List.filter_cons, h, ih]

/-- Filtering with a predicate after filtering with its negation is empty. -/
theorem filter_filter_not {α : Type} (p : α → Bool) :
    ∀ l : List α, (l.filter (fun a => !(p a))).filter p = [] := by
  intro l
  induction l with
  | nil => rfl
  | cons a t ih =>
    by_cases h : p a
    · simp [List.filter_cons, h, ih]
    · simp [List.filter_cons, h, ih]

/-- Filtering with a negation after filtering with it is the identity. -/
theorem filter_not_filter_not {α : Type} (p : α → Bool) :
    ∀ l : List α, (l.filter (fun a => !(p a))).filter (fun a => !(p a))
      = l.filter (fun a => !(p a)) := filter_filter_self (fun a => !(p a))

/-- Filtering with a negation after filtering with the predicate is empty. -/
theorem filter_not_filter {α : Type} (p : α → Bool) :
    ∀ l : List α, (l.filter p).filter (fun a => !(p a)) = [] := by
  intro l
  induction l with
  | nil => rfl
  | cons a t ih =>
    by_cases h : p a
    · simp [List.filter_cons, h, ih]
    · simp [List.filter_cons, h, ih]

/-- C6: the post-processing sort is the stable partition putting every
Service-kind object first while preserving relative order inside each
partition, and it is idempotent. -/
theorem sortServicesFirst_stable_idempotent :
    ∀ l : List K8sObject,
      SortServicesFirst l
        = l.filter (fun o => o.kind == "Service")
          ++ l.filter (fun o => !(o.kind == "Service"))
      ∧ SortServicesFirst (SortServicesFirst l) = SortServicesFirst l := by
  have hchar : ∀ l : List K8sObject,
      SortServicesFirst l
        = l.filter (fun o => o.kind == "Service")
          ++ l.filter (fun o => !(o.kind == "Service")) := by
    intro l
    unfold SortServicesFirst
    rw [sortServicesFold]
    simp
  intro l
  refine ⟨hchar l, ?_⟩
  rw [hchar (SortServicesFirst l), hchar l, List.filter_append, List.filter_append,
    filter_filter_self, filter_filter_not, filter_not_filter, filter_not_filter_not]
  simp

/-- Names already present survive the volume union fold. -/
theorem setVolumes_names_mono (vs : List Volume) (ps : PodSpec) :
    ∀ n, n ∈ volumeNames ps.volumes → n ∈ volumeNames (SetVolumes vs ps).volumes := by
  induction vs generalizing ps with
  | nil =>
    intro n h
    exact h
  | cons v t ih =>
    intro n h
    show n ∈ volumeNames (SetVolumes t (addVolumeStep ps v)).volumes
    refine ih (addVolumeStep ps v) n ?_
    unfold addVolumeStep
    by_cases hv : v.name ∈ volumeNames ps.volumes
    · rw [if_pos hv]
      exact h
    · rw [if_neg hv]
      show n ∈ volumeNames (ps.volumes ++ [v])
      unfold volumeNames
      rw [List.map_append]
      exact List.mem_append_left _ h

/-- After the volume union fold, every input volume's name is present. -/
theorem setVolumes_names_add (vs : List Volume) (ps : PodSpec) :
    ∀ v, v ∈ vs → v.name ∈ volumeNames (SetVolumes vs ps).volumes := by
  induction vs generalizing ps with
  | nil =>
    intro v h
    exact absurd h (List.not_mem_nil v)
  | cons w t ih =>
    intro v h
    rcases List.mem_cons.mp h with h1 | h2
    · subst h1
      show v.name ∈ volumeNames (SetVolumes t (addVolumeStep ps v)).volumes
      refine setVolumes_names_mono t (addVolumeStep ps v) v.name ?_
      unfold addVolumeStep
      by_cases hv : v.name ∈ volumeNames ps.volumes
      · rw [if_pos hv]
        exact hv
      · rw [if_neg hv]
        show v.name ∈ volumeNames (ps.volumes ++ [v])
        unfold volumeNames
        rw [List.map_append]
        exact List.mem_append_right _ (by simp [volumeNames])
    · show v.name ∈ volumeNames (SetVolumes t (addVolumeStep ps w)).volumes
      exact ih (addVolumeStep ps w) v h2

/-- The volume union fold is a no-op when every input name is present. -/
theorem setVolumes_noop (vs : List Volume) (ps : PodSpec)
    (h : ∀ v ∈ vs, v.name ∈ volumeNames ps.volumes) : SetVolumes vs ps = ps := by
  induction vs generalizing ps with
  | nil => rfl
  | cons v t ih =>
    have hv : v.name ∈ volumeNames ps.volumes := h v (List.mem_cons_self v t)
    show SetVolumes t (addVolumeStep ps v) = ps
    rw [addVolumeStep, if_pos hv]
    exact ih ps (fun w hw => h w (List.mem_cons_of_mem v hw))

/-- Paths already present survive the mount union fold. -/
theorem mountFold_paths_mono (vms : List VolumeMount) (acc : List VolumeMount) :
    ∀ p, p ∈ volumeMountPaths acc → p ∈ volumeMountPaths (vms.foldl addVolumeMountStep acc) := by
  induction vms generalizing acc with
  | nil =>
    intro p h
    exact h
  | cons vm t ih =>
    intro p h
    show p ∈ volumeMountPaths (t.foldl addVolumeMountStep (addVolumeMountStep acc vm))
    refine ih (addVolumeMountStep acc vm) p ?_
    unfold addVolumeMountStep
    by_cases hv : vm.mountPath ∈ volumeMountPaths acc
    · rw [if_pos hv]
      exact h
    · rw [if_neg hv]
      show p ∈ volumeMountPaths (acc ++ [vm])
      unfold volumeMountPaths
      rw [List.map_append]
      exact List.mem_append_left _ h

/-- After the mount union fold, every input mount's path is present. -/
theorem mountFold_paths_add (vms : List VolumeMount) (acc : List VolumeMount) :
    ∀ vm, vm ∈ vms → vm.mountPath ∈ volumeMountPaths (vms.foldl addVolumeMountStep acc) := by
  induction vms generalizing acc with
  | nil =>
    intro vm h
    exact absurd h (List.not_mem_nil vm)
  | cons w t ih =>
    intro vm h
    rcases List.mem_cons.mp h with h1 | h2
    · subst h1
      show vm.mountPath ∈ volumeMountPaths (t.foldl addVolumeMountStep (addVolumeMountStep acc vm))
      refine mountFold_paths_mono t (addVolumeMountStep acc vm) vm.mountPath ?_
      unfold addVolumeMountStep
      by_cases hv : vm.mountPath ∈ volumeMountPaths acc
      · rw [if_pos hv]
        exact hv
      · rw [if_neg hv]
        show vm.mountPath ∈ volumeMountPaths (acc ++ [vm])
        unfold volumeMountPaths
        rw [List.map_append]
        exact List.mem_append_right _ (by simp [volumeMountPaths])
    · exact ih (addVolumeMountStep acc w) vm h2

/-- The mount union fold is a no-op when every input path is present. -/
theorem mountFold_noop (vms : List VolumeMount) (acc : List VolumeMount)
    (h : ∀ vm ∈ vms, vm.mountPath ∈ volumeMountPaths acc) :
    vms.foldl addVolumeMountStep acc = acc := by
  induction vms generalizing acc with
  | nil => rfl
  | cons vm t ih =>
    have hv : vm.mountPath ∈ volumeMountPaths acc := h vm (List.mem_cons_self vm t)
    show t.foldl addVolumeMountStep (addVolumeMountStep acc vm) = acc
    rw [addVolumeMountStep, if_pos hv]
    exact ih acc (fun w hw => h w (List.mem_cons_of_mem vm hw))

/-- Per-container mount union is idempotent. -/
theorem addVolumeMounts_idem (vms : List VolumeMount) (c : Container) :
    addVolumeMounts vms (addVolumeMounts vms c) = addVolumeMounts vms c := by
  unfold addVolumeMounts
  have h : vms.foldl addVolumeMountStep (vms.foldl addVolumeMountStep c.volumeMounts)
      = vms.foldl addVolumeMountStep c.volumeMounts :=
    mountFold_noop vms _ (fun vm hvm => mountFold_paths_add vms c.volumeMounts vm hvm)
  simp [h]

/-- A list maps to itself under a function fixing all its members. -/
theorem map_self_of {α : Type} (f : α → α) :
    ∀ l : List α, (∀ a ∈ l, f a = a) → l.map f = l := by
  intro l h
  induction l with
  | nil => rfl
  | cons a t ih =>
    rw [List.map_cons, h a (List.mem_cons_self a t),
      ih (fun b hb => h b (List.mem_cons_of_mem a hb))]

/-- C4: the volume and volume-mount builder steps are idempotent unions —
adding a volume whose name (or a mount whose path) is already present is a
no-op, and applying the same step twice equals applying it once. -/
theorem volumeUnion_idempotent :
    (∀ (vs : List Volume) (ps : PodSpec), SetVolumes vs (SetVolumes vs ps) = SetVolumes vs ps)
    ∧ (∀ (v : Volume) (ps : PodSpec), v.name ∈ volumeNames ps.volumes →
        SetVolumes [v] ps = ps)
    ∧ (∀ (vms : List VolumeMount) (ps : PodSpec),
        SetVolumeMounts vms (SetVolumeMounts vms ps) = SetVolumeMounts vms ps)
    ∧ (∀ (vm : VolumeMount) (ps : PodSpec),
        (∀ c ∈ ps.containers, vm.mountPath ∈ volumeMountPaths c.volumeMounts) →
        SetVolumeMounts [vm] ps = ps) := by
  refine ⟨?_, ?_, ?_, ?_⟩
  · intro vs ps
    exact setVolumes_noop vs (SetVolumes vs ps) (fun v hv => setVolumes_names_add vs ps v hv)
  · intro v ps h
    show addVolumeStep ps v = ps
    rw [addVolumeStep, if_pos h]
  · intro vms ps
    unfold SetVolumeMounts
    have hmap : (ps.containers.map (addVolumeMounts vms)).map (addVolumeMounts vms)
        = ps.containers.map (addVolumeMounts vms) := by
      rw [List.map_map]
      have hfun : addVolumeMounts vms ∘ addVolumeMounts vms = addVolumeMounts vms :=
        funext (addVolumeMounts_idem vms)
      rw [hfun]
    simp [hmap]
  · intro vm ps h
    unfold SetVolumeMounts
    have hmap : ps.containers.map (addVolumeMounts [vm]) = ps.containers := by
      refine map_self_of _ _ (fun c hc => ?_)
      unfold addVolumeMounts
      rw [mountFold_noop [vm] c.volumeMounts]
      · intro w hw
        rcases List.mem_cons.mp hw with h1 | h2
        · subst h1
          exact h c hc
        · exact absurd h2 (List.not_mem_nil w)
    rw [hmap]

/-- Witness for C4 at a concrete pod spec: re-adding an existing volume
name and an existing mount path are no-ops. -/
theorem volumeUnion_idempotent_witness :
    SetVolumes [{ name := "data" }]
        { containers := [], volumes := [{ name := "data", source := "pvc" }] }
      = { containers := [], volumes := [{ name := "data", source := "pvc" }] }
    ∧ SetVolumeMounts [{ mountPath := "/var/lib" }]
        { containers := [{ name := "web", volumeMounts := [{ name := "data", mountPath := "/var/lib" }] }],
          volumes := [] }
      = { containers := [{ name := "web", volumeMounts := [{ name := "data", mountPath := "/var/lib" }] }],
          volumes := [] } := by
  constructor
  · exact volumeUnion_idempotent.2.1 { name := "data" }
      { containers := [], volumes := [{ name := "data", source := "pvc" }] } (by decide)
  · exact volumeUnion_idempotent.2.2.2 { mountPath := "/var/lib" }
      { containers := [{ name := "web", volumeMounts := [{ name := "data", mountPath := "/var/lib" }] }],
        volumes := [] } (by decide)

/-- The dedup loop returns a sublist of its input. -/
theorem removeDupGo_sublist (l : List K8sObject) (seen : List String) :
    (removeDupGo l seen).Sublist l := by
  induction l generalizing seen with
  | nil => simp [removeDupGo]
  | cons a t ih =>
    by_cases h : dedupKey a ∈ seen
    · rw [removeDupGo, if_pos h]
      exact (ih seen).cons a
    · rw [removeDupGo, if_neg h]
      exact (ih (dedupKey a :: seen)).cons₂ a

/-- No kept object carries a key that was already seen. -/
theorem removeDupGo_keys_not_seen (l : List K8sObject) (seen : List String) :
    ∀ o ∈ removeDupGo l seen, dedupKey o ∉ seen := by
  induction l generalizing seen with
  | nil => simp [removeDupGo]
  | cons a t ih =>
    intro o ho
    by_cases h : dedupKey a ∈ seen
    · rw [removeDupGo, if_pos h] at ho
      exact ih seen o ho
    · rw [removeDupGo, if_neg h] at ho
      rcases List.mem_cons.mp ho with h1 | h2
      · subst h1
        exact h
      · intro hcontra
        exact ih (dedupKey a :: seen) o h2 (List.mem_cons_of_mem _ hcontra)

/-- The kept objects carry pairwise distinct keys. -/
theorem removeDupGo_keys_nodup (l : List K8sObject) (seen : List String) :
    ((removeDupGo l seen).map dedupKey).Nodup := by
  induction l generalizing seen with
  | nil => simp [removeDupGo]
  | cons a t ih =>
    by_cases h : dedupKey a ∈ seen
    · rw [removeDupGo, if_pos h]
      exact ih seen
    · rw [removeDupGo, if_neg h]
      rw [List.map_cons, List.nodup_cons]
      refine ⟨?_, ih (dedupKey a :: seen)⟩
      intro hcontra
      rcases List.mem_map.mp hcontra with ⟨o, ho, hkey⟩
      exact removeDupGo_keys_not_seen t (dedupKey a :: seen) o ho
        (hkey ▸ List.mem_cons_self _ _)

/-- Every input key either was seen already or survives in the output. -/
theorem removeDupGo_covers (l : List K8sObject) (seen : List String) :
    ∀ o ∈ l, dedupKey o ∈ seen ∨ dedupKey o ∈ (removeDupGo l seen).map dedupKey := by
  induction l generalizing seen with
  | nil => simp
  | cons a t ih =>
    intro o ho
    by_cases h : dedupKey a ∈ seen
    · rw [removeDupGo, if_pos h]
      rcases List.mem_cons.mp ho with h1 | h2
      · subst h1
        exact Or.inl h
      · exact ih seen o h2
    · rw [removeDupGo, if_neg h, List.map_cons]
      rcases List.mem_cons.mp ho with h1 | h2
      · subst h1
        exact Or.inr (List.mem_cons_self _ _)
      · rcases ih (dedupKey a :: seen) o h2 with h3 | h3
        · rcases List.mem_cons.mp h3 with h4 | h5
          · exact Or.inr (h4 ▸ List.mem_cons_self _ _)
          · exact Or.inl h5
        · exact Or.inr (List.mem_cons_of_mem _ h3)

/-- Every kept object is the first input object bearing its key. -/
theorem removeDupGo_first_wins (l : List K8sObject) (seen : List String) :
    ∀ o ∈ removeDupGo l seen,
      l.find? (fun x => dedupKey x == dedupKey o) = some o := by
  induction l generalizing seen with
  | nil => simp [removeDupGo]
  | cons a t ih =>
    intro o ho
    by_cases h : dedupKey a ∈ seen
    · rw [removeDupGo, if_pos h] at ho
      have hne : dedupKey a ≠ dedupKey o := by
        intro hcontra
        exact removeDupGo_keys_not_seen t seen o ho (hcontra ▸ h)
      rw [List.find?_cons_of_neg _ (by simpa using hne)]
      exact ih seen o ho
    · rw [removeDupGo, if_neg h] at ho
      rcases List.mem_cons.mp ho with h1 | h2
      · subst h1
        rw [List.find?_cons_of_pos _ (by simp)]
      · have hne : dedupKey a ≠ dedupKey o := by
          intro hcontra
          exact removeDupGo_keys_not_seen t (dedupKey a :: seen) o h2
            (hcontra ▸ List.mem_cons_self _ _)
        rw [List.find?_cons_of_neg _ (by simpa using hne)]
        exact ih (dedupKey a :: seen) o h2

/-- The dedup loop is the identity on a list with distinct, unseen keys. -/
theorem removeDupGo_noop (l : List K8sObject) (seen : List String)
    (hd : (l.map dedupKey).Nodup) (hs : ∀ o ∈ l, dedupKey o ∉ seen) :
    removeDupGo l seen = l := by
  induction l generalizing seen with
  | nil => rfl
  | cons a t ih =>
    have ha : dedupKey a ∉ seen := hs a (List.mem_cons_self a t)
    rw [removeDupGo, if_neg ha]
    rw [List.map_cons, List.nodup_cons] at hd
    rw [ih (dedupKey a :: seen) hd.2]
    intro o ho
    intro hcontra
    rcases List.mem_cons.mp hcontra with h1 | h2
    · exact hd.1 (h1 ▸ List.mem_map_of_mem dedupKey ho)
    · exact hs o (List.mem_cons_of_mem a ho) h2

/-- C5 counterexample: two Service objects with distinct
(kind, namespace, name) identities — namespace `"ab"` / name `"c"` versus
namespace `"a"` / name `"bc"` — collide under the concatenated string key,
so the later object is dropped although its identity tuple differs;
deduplication is therefore not keyed on the (kind, namespace, name)
tuple. -/
theorem removeDup_counterexample :
    (K8sObject.service { name := "c", namespc := "ab" }).kind
        = (K8sObject.service { name := "bc", namespc := "a" }).kind
    ∧ ((K8sObject.service { name := "c", namespc := "ab" }).metadata.namespc,
        (K8sObject.service { name := "c", namespc := "ab" }).metadata.name)
      ≠ ((K8sObject.service { name := "bc", namespc := "a" }).metadata.namespc,
        (K8sObject.service { name := "bc", namespc := "a" }).metadata.name)
    ∧ RemoveDupObjects
        [K8sObject.service { name := "c", namespc := "ab" },
         K8sObject.service { name := "bc", namespc := "a" }]
      = [K8sObject.service { name := "c", namespc := "ab" }] := by decide

/-- C5 amended: deduplication keys objects by the concatenated string
groupVersionKind-string + namespace + name (so distinct namespace/name
pairs whose concatenations coincide are conflated); the first object with
a given key is kept and every later object with the same key is dropped;
the result is a sublist with pairwise-distinct keys, and deduplication is
idempotent. -/
theorem removeDup_first_wins_amended :
    ∀ l : List K8sObject,
      (RemoveDupObjects l).Sublist l
      ∧ ((RemoveDupObjects l).map dedupKey).Nodup
      ∧ (∀ o ∈ l, dedupKey o ∈ (RemoveDupObjects l).map dedupKey)
      ∧ (∀ o ∈ RemoveDupObjects l,
          l.find? (fun x => dedupKey x == dedupKey o) = some o)
      ∧ RemoveDupObjects (RemoveDupObjects l) = RemoveDupObjects l := by
  intro l
  refine ⟨removeDupGo_sublist l [], removeDupGo_keys_nodup l [], ?_, ?_, ?_⟩
  · intro o ho
    rcases removeDupGo_covers l [] o ho with h | h
    · exact absurd h (List.not_mem_nil _)
    · exact h
  · exact removeDupGo_first_wins l []
  · exact removeDupGo_noop (RemoveDupObjects l) [] (removeDupGo_keys_nodup l [])
      (fun o _ => List.not_mem_nil _)

/-- Witness for C5 at a concrete list containing a duplicated ConfigMap
identity: the first occurrence survives, the duplicate is dropped. -/
theorem removeDup_first_wins_amended_witness :
    dedupKey (K8sObject.other "ConfigMap" { name := "shared", namespc := "" })
        ∈ (RemoveDupObjects
            [K8sObject.other "ConfigMap" { name := "shared", namespc := "" },
             K8sObject.service { name := "web", namespc := "" },
             K8sObject.other "ConfigMap" { name := "shared", namespc := "" }]).map dedupKey
    ∧ [K8sObject.other "ConfigMap" { name := "shared", namespc := "" },
       K8sObject.service { name := "web", namespc := "" },
       K8sObject.other "ConfigMap" { name := "shared", namespc := "" }].find?
          (fun x => dedupKey x
            == dedupKey (K8sObject.other "ConfigMap" { name := "shared", namespc := "" }))
        = some (K8sObject.other "ConfigMap" { name := "shared", namespc := "" }) := by
  have h := removeDup_first_wins_amended
    [K8sObject.other "ConfigMap" { name := "shared", namespc := "" },
     K8sObject.service { name := "web", namespc := "" },
     K8sObject.other "ConfigMap" { name := "shared", namespc := "" }]
  exact ⟨h.2.2.1 _ (by decide), h.2.2.2.1 _ (by decide)⟩

/-- C1: when the services produce exactly the mapping A joins B, and the
object list holds the standard-workload (Deployment) objects A and B, the
merge pass leaves a single workload B whose containers are B's original
containers followed by A's, and no workload named A remains. -/
theorem networkModeMerge_property
    (a b : String) (metaA metaB : ObjectMeta) (sA sB : String)
    (csA csB : List Container) (services : List ServiceConfig)
    (hsearch : searchNetworkModeToService services
      = [{ SourceDeploymentName := a, TargetDeploymentName := b }])
    (hA : metaA.name = a) (hB : metaB.name = b) (hab : a ≠ b) :
    fixNetworkModeToService
        [K8sObject.deployment metaA sA csA, K8sObject.deployment metaB sB csB] services
      = [K8sObject.deployment metaB sB (csB ++ csA)] := by
  have hAb : metaA.name ≠ b := by
    rw [hA]
    exact hab
  have hBa : metaB.name ≠ a := by
    rw [hB]
    exact fun hcontra => hab hcontra.symm
  simp only [fixNetworkModeToService, hsearch, List.length_cons, List.length_nil]
  rw [if_neg (by simp)]
  have hmerge : mergeContainersIntoDestinationDeployment
      [{ SourceDeploymentName := a, TargetDeploymentName := b }]
      [K8sObject.deployment metaA sA csA, K8sObject.deployment metaB sB csB]
      = [K8sObject.deployment metaA sA csA, K8sObject.deployment metaB sB (csB ++ csA)] := by
    show addContainersFromSourceToTargetDeployment
        [K8sObject.deployment metaA sA csA, K8sObject.deployment metaB sB csB]
        { SourceDeploymentName := a, TargetDeploymentName := b }
      = _
    unfold addContainersFromSourceToTargetDeployment
    have hrange : List.range
        ([K8sObject.deployment metaA sA csA, K8sObject.deployment metaB sB csB]).length
        = [0, 1] := rfl
    rw [hrange]
    have hstep0 : addContainersFromSourceStep
        { SourceDeploymentName := a, TargetDeploymentName := b }
        [K8sObject.deployment metaA sA csA, K8sObject.deployment metaB sB csB] 0
        = [K8sObject.deployment metaA sA csA,
           K8sObject.deployment metaB sB (csB ++ csA)] := by
      show (if metaA.name = a then
          addContainersToTargetDeployment
            [K8sObject.deployment metaA sA csA, K8sObject.deployment metaB sB csB] csA b
        else [K8sObject.deployment metaA sA csA, K8sObject.deployment metaB sB csB]) = _
      rw [if_pos hA]
      show [if metaA.name = b then K8sObject.deployment metaA sA (csA ++ csA)
            else K8sObject.deployment metaA sA csA,
            if metaB.name = b then K8sObject.deployment metaB sB (csB ++ csA)
            else K8sObject.deployment metaB sB csB] = _
      rw [if_neg hAb, if_pos hB]
    have hstep1 : addContainersFromSourceStep
        { SourceDeploymentName := a, TargetDeploymentName := b }
        [K8sObject.deployment metaA sA csA, K8sObject.deployment metaB sB (csB ++ csA)] 1
        = [K8sObject.deployment metaA sA csA,
           K8sObject.deployment metaB sB (csB ++ csA)] := by
      show (if metaB.name = a then
          addContainersToTargetDeployment
            [K8sObject.deployment metaA sA csA, K8sObject.deployment metaB sB (csB ++ csA)]
            (csB ++ csA) b
        else [K8sObject.deployment metaA sA csA, K8sObject.deployment metaB sB (csB ++ csA)]) = _
      rw [if_neg hBa]
    rw [List.foldl_cons, hstep0, List.foldl_cons, hstep1, List.foldl_nil]
  rw [hmerge]
  show removeTargetDeployment
      [K8sObject.deployment metaA sA csA, K8sObject.deployment metaB sB (csB ++ csA)] a
    = _
  show removeTargetGo a
      [K8sObject.deployment metaA sA csA, K8sObject.deployment metaB sB (csB ++ csA)] 1
    = _
  have hstepr1 : removeTargetStep
      [K8sObject.deployment metaA sA csA, K8sObject.deployment metaB sB (csB ++ csA)] a 1
      = [K8sObject.deployment metaA sA csA, K8sObject.deployment metaB sB (csB ++ csA)] := by
    show (if metaB.name = a then
        removeFromSlice
          [K8sObject.deployment metaA sA csA, K8sObject.deployment metaB sB (csB ++ csA)]
          (K8sObject.deployment metaB sB (csB ++ csA))
      else [K8sObject.deployment metaA sA csA, K8sObject.deployment metaB sB (csB ++ csA)]) = _
    rw [if_neg hBa]
  have hstepr0 : removeTargetStep
      [K8sObject.deployment metaA sA csA, K8sObject.deployment metaB sB (csB ++ csA)] a 0
      = [K8sObject.deployment metaB sB (csB ++ csA)] := by
    show (if metaA.name = a then
        removeFromSlice
          [K8sObject.deployment metaA sA csA, K8sObject.deployment metaB sB (csB ++ csA)]
          (K8sObject.deployment metaA sA csA)
      else [K8sObject.deployment metaA sA csA, K8sObject.deployment metaB sB (csB ++ csA)]) = _
    rw [if_pos hA]
    show (if K8sObject.deployment metaA sA csA = K8sObject.deployment metaA sA csA then
        [K8sObject.deployment metaB sB (csB ++ csA)]
      else K8sObject.deployment metaA sA csA ::
        removeFromSlice [K8sObject.deployment metaB sB (csB ++ csA)]
          (K8sObject.deployment metaA sA csA)) = _
    rw [if_pos rfl]
  rw [removeTargetGo, hstepr1, removeTargetGo, hstepr0]

/-- Witness for C1: the spec's scenario — `cache` declaring network-mode
`service:web` is folded into the `web` deployment. -/
theorem networkModeMerge_property_witness :
    fixNetworkModeToService
        [K8sObject.deployment { name := "cache", namespc := "" } "" [{ name := "cache" }],
         K8sObject.deployment { name := "web", namespc := "" } "" [{ name := "web" }]]
        [{ Name := "cache", NetworkMode := "service:web" }]
      = [K8sObject.deployment { name := "web", namespc := "" } ""
          [{ name := "web" }, { name := "cache" }]] :=
  networkModeMerge_property "cache" "web"
    { name := "cache", namespc := "" } { name := "web", namespc := "" } "" ""
    [{ name := "cache" }] [{ name := "web" }]
    [{ Name := "cache", NetworkMode := "service:web" }]
    (by decide) rfl rfl (by decide)

end Kompose
